import Mathlib

/-!
Verification of the chunkflow upload platform against its specification.

The development shallowly embeds the parts of the TypeScript source that the
claims are about:

* `ChunkSizeAdjuster` from `packages/core/src/adapters/xhr-adapter.ts`
  (construction validation, `adjust`, `getCurrentSize`, `reset`).
* The IndexedDB-backed `UploadStorage` from the client
  (`saveRecord`, `getRecord`, `updateRecord`) as a keyed record store.
* The `mitt`-based event bus returned by `createEventBus`.
* `UploadManager.resumeTask` validation from `packages/core/src/upload-manager.ts`.
* The `ConcurrencyController` from `packages/shared/src/concurrency-controller.ts`
  together with the `p-limit` queue discipline it delegates to.
* The ranged-read path of `UploadController.getFile` on the server.

JavaScript numbers are modelled by `ℚ` where fractional values can arise
(chunk sizes, times) and by `ℕ` for indices, byte counts and clocks.
Thrown exceptions are modelled by `Except`/`Option` results; methods that
may mutate state before throwing are modelled as state-passing functions
returning the (possibly unchanged) state together with the outcome.
-/

namespace Chunkflow

/-! ## ChunkSizeAdjuster (xhr-adapter.ts) -/

/-- Options accepted by the `ChunkSizeAdjuster` constructor.  `targetTime`
is optional and defaults to 3000 ms (`{ targetTime: 3000, ...options }`). -/
structure ChunkSizeAdjusterOptions where
  initialSize : ℚ
  minSize : ℚ
  maxSize : ℚ
  targetTime : Option ℚ
deriving DecidableEq, Repr

/-- The adjuster's state: `currentSize` plus the resolved options. -/
structure ChunkSizeAdjuster where
  currentSize : ℚ
  initialSize : ℚ
  minSize : ℚ
  maxSize : ℚ
  targetTime : ℚ
deriving DecidableEq, Repr

/-- The `ChunkSizeAdjuster` constructor: resolves the `targetTime` default,
then validates `minSize ≤ maxSize`, `initialSize ∈ [minSize, maxSize]` and
`targetTime > 0`, throwing the source's error messages otherwise. -/
def mkChunkSizeAdjuster (o : ChunkSizeAdjusterOptions) : Except String ChunkSizeAdjuster :=
  if o.minSize > o.maxSize then
    .error "minSize cannot be greater than maxSize"
  else if o.initialSize < o.minSize ∨ o.initialSize > o.maxSize then
    .error "initialSize must be between minSize and maxSize"
  else if o.targetTime.getD 3000 ≤ 0 then
    .error "targetTime must be positive"
  else
    .ok { currentSize := o.initialSize, initialSize := o.initialSize,
          minSize := o.minSize, maxSize := o.maxSize, targetTime := o.targetTime.getD 3000 }

/-- `ChunkSizeAdjuster.adjust(uploadTimeMs)`.  Throws on negative input
before touching any state; otherwise doubles the size (capped at `maxSize`)
for fast uploads, halves it (floored at `minSize`) for slow uploads, and
keeps it unchanged in between.  Returns the post-call object state together
with the thrown error or returned size. -/
def adjust (a : ChunkSizeAdjuster) (uploadTimeMs : ℚ) :
    ChunkSizeAdjuster × Except String ℚ :=
  if uploadTimeMs < 0 then
    (a, .error "uploadTimeMs cannot be negative")
  else if uploadTimeMs < a.targetTime * 0.5 then
    ({ a with currentSize := min (a.currentSize * 2) a.maxSize },
      .ok (min (a.currentSize * 2) a.maxSize))
  else if uploadTimeMs > a.targetTime * 1.5 then
    ({ a with currentSize := max (a.currentSize / 2) a.minSize },
      .ok (max (a.currentSize / 2) a.minSize))
  else
    (a, .ok a.currentSize)

/-- `ChunkSizeAdjuster.getCurrentSize()`. -/
def getCurrentSize (a : ChunkSizeAdjuster) : ℚ := a.currentSize

/-- `ChunkSizeAdjuster.reset()`. -/
def reset (a : ChunkSizeAdjuster) : ChunkSizeAdjuster :=
  { a with currentSize := a.initialSize }

/-- Run a sequence of `adjust` calls, keeping the object state each call
leaves behind (a thrown call leaves the state unchanged). -/
def adjustMany (a : ChunkSizeAdjuster) (ts : List ℚ) : ChunkSizeAdjuster :=
  ts.foldl (fun b t => (adjust b t).1) a

/-- `adjust` never changes the configuration fields, only `currentSize`. -/
theorem adjust_config (a : ChunkSizeAdjuster) (t : ℚ) :
    ((adjust a t).1).minSize = a.minSize ∧
    ((adjust a t).1).maxSize = a.maxSize ∧
    ((adjust a t).1).targetTime = a.targetTime ∧
    ((adjust a t).1).initialSize = a.initialSize := by
  unfold adjust
  split_ifs <;> simp

/-- `adjustMany` never changes the configuration fields. -/
theorem adjustMany_config (a : ChunkSizeAdjuster) (ts : List ℚ) :
    ((adjustMany a ts)).minSize = a.minSize ∧
    ((adjustMany a ts)).maxSize = a.maxSize ∧
    ((adjustMany a ts)).targetTime = a.targetTime ∧
    ((adjustMany a ts)).initialSize = a.initialSize := by
  induction ts generalizing a with
  | nil => simp [adjustMany]
  | cons t ts ih =>
    have h := adjust_config a t
    have h2 := ih ((adjust a t).1)
    simp only [adjustMany, List.foldl_cons] at *
    exact ⟨h2.1.trans h.1, h2.2.1.trans h.2.1, h2.2.2.1.trans h.2.2.1,
      h2.2.2.2.trans h.2.2.2⟩

/-- Successful construction pins down every field of the adjuster. -/
theorem mk_ok_fields (o : ChunkSizeAdjusterOptions) (a : ChunkSizeAdjuster)
    (h : mkChunkSizeAdjuster o = .ok a) :
    a.currentSize = o.initialSize ∧ a.initialSize = o.initialSize ∧
    a.minSize = o.minSize ∧ a.maxSize = o.maxSize ∧
    a.targetTime = o.targetTime.getD 3000 ∧
    o.minSize ≤ o.maxSize ∧ o.minSize ≤ o.initialSize ∧
    o.initialSize ≤ o.maxSize ∧ 0 < o.targetTime.getD 3000 := by
  unfold mkChunkSizeAdjuster at h
  split_ifs at h with h1 h2 h3
  simp only [Except.ok.injEq] at h
  subst h
  push_neg at h1 h2 h3
  exact ⟨rfl, rfl, rfl, rfl, rfl, h1, h2.1, h2.2, h3⟩

/-- The step invariant for the amended bounds claim: if the configuration is
ordered with a non-negative floor, one `adjust` call keeps `currentSize`
inside `[minSize, maxSize]`. -/
theorem adjust_step_bounds (a : ChunkSizeAdjuster) (t : ℚ)
    (hord : a.minSize ≤ a.maxSize) (hpos : 0 ≤ a.minSize)
    (hlo : a.minSize ≤ a.currentSize) (hhi : a.currentSize ≤ a.maxSize) :
    a.minSize ≤ ((adjust a t).1).currentSize ∧
    ((adjust a t).1).currentSize ≤ a.maxSize := by
  unfold adjust
  split_ifs <;> simp only
  · exact ⟨hlo, hhi⟩
  · constructor
    · exact le_min (by linarith) hord
    · exact min_le_right _ _
  · constructor
    · exact le_max_right _ _
    · exact max_le (by linarith) hord
  · exact ⟨hlo, hhi⟩

/-- Bounds are preserved by any sequence of `adjust` calls, provided the
configuration is ordered and the floor is non-negative. -/
theorem adjustMany_bounds_aux :
    ∀ (ts : List ℚ) (a : ChunkSizeAdjuster), a.minSize ≤ a.maxSize → 0 ≤ a.minSize →
      a.minSize ≤ a.currentSize → a.currentSize ≤ a.maxSize →
      a.minSize ≤ (adjustMany a ts).currentSize ∧
        (adjustMany a ts).currentSize ≤ a.maxSize := by
  intro ts
  induction ts with
  | nil => intro a _ _ h3 h4; simpa [adjustMany] using ⟨h3, h4⟩
  | cons t ts ih =>
    intro a h1 h2 h3 h4
    obtain ⟨e1, e2, _, _⟩ := adjust_config a t
    obtain ⟨s1, s2⟩ := adjust_step_bounds a t h1 h2 h3 h4
    have hm : adjustMany a (t :: ts) = adjustMany ((adjust a t).1) ts := by
      simp [adjustMany]
    have := ih ((adjust a t).1) (by rw [e1, e2]; exact h1) (by rw [e1]; exact h2)
      (by rw [e1]; exact s1) (by rw [e2]; exact s2)
    rw [hm]
    rw [e1, e2] at this
    exact this

/-- C1 (counterexample): the options `{initialSize := -8, minSize := -8,
maxSize := 10, targetTime := 3000}` satisfy the claim's validity conditions
(`minSize ≤ initialSize ≤ maxSize`, `targetTime > 0`) and are accepted by the
constructor, yet a single `adjust 0` call (a non-negative upload time) drives
the current size to `min (-8·2) 10 = -16 < minSize`. -/
theorem chunkSizeAdjuster_bounds_cx :
    mkChunkSizeAdjuster ⟨-8, -8, 10, some 3000⟩
      = .ok ⟨-8, -8, -8, 10, 3000⟩ ∧
    (∀ t ∈ [(0 : ℚ)], 0 ≤ t) ∧
    getCurrentSize (adjustMany ⟨-8, -8, -8, 10, 3000⟩ [0]) = -16 ∧
    ¬ ((-8 : ℚ) ≤ getCurrentSize (adjustMany ⟨-8, -8, -8, 10, 3000⟩ [0])) := by
  refine ⟨by norm_num [mkChunkSizeAdjuster], by simp, ?_, ?_⟩ <;>
    norm_num [adjustMany, adjust, getCurrentSize]

/-- C1 (amended): for every `ChunkSizeAdjuster` constructed with valid options
(`minSize ≤ initialSize ≤ maxSize` and `targetTime > 0`) **whose `minSize` is
moreover non-negative**, after any sequence of `adjust` calls with
non-negative upload times, `getCurrentSize` stays within
`[minSize, maxSize]`. -/
theorem chunkSizeAdjuster_bounds (o : ChunkSizeAdjusterOptions)
    (a₀ : ChunkSizeAdjuster) (ts : List ℚ)
    (hmk : mkChunkSizeAdjuster o = .ok a₀) (hmin : 0 ≤ o.minSize)
    (hts : ∀ t ∈ ts, 0 ≤ t) :
    o.minSize ≤ getCurrentSize (adjustMany a₀ ts) ∧
    getCurrentSize (adjustMany a₀ ts) ≤ o.maxSize := by
  obtain ⟨hc, _, hm, hM, _, hord, h7, h8, _⟩ := mk_ok_fields o a₀ hmk
  have H := adjustMany_bounds_aux ts a₀ (by rw [hm, hM]; exact hord)
    (by rw [hm]; exact hmin) (by rw [hm, hc]; exact h7) (by rw [hM, hc]; exact h8)
  rw [hm, hM] at H
  exact H

/-- Witness for the amended C1 theorem at a concrete valid configuration and
a concrete fast-then-slow sequence of calls. -/
theorem chunkSizeAdjuster_bounds_witness :
    (256 : ℚ) ≤ getCurrentSize (adjustMany ⟨1024, 1024, 256, 4096, 3000⟩ [100, 9000]) ∧
    getCurrentSize (adjustMany ⟨1024, 1024, 256, 4096, 3000⟩ [100, 9000]) ≤ 4096 := by
  have H := chunkSizeAdjuster_bounds ⟨1024, 256, 4096, some 3000⟩
    ⟨1024, 1024, 256, 4096, 3000⟩ [100, 9000]
    (by norm_num [mkChunkSizeAdjuster])
    (by norm_num)
    (by intro t ht; simp only [List.mem_cons, List.not_mem_nil, or_false] at ht
        rcases ht with h | h <;> rw [h] <;> norm_num)
  simpa using H

/-- C2: on a validly constructed adjuster (after any prior `adjust` calls),
a call `adjust t` with `0 ≤ t < 0.5·targetTime` sets the size to
`min (current·2) maxSize` and returns it; with `t > 1.5·targetTime` it sets
the size to `max (current/2) minSize` and returns it; with
`0.5·targetTime ≤ t ≤ 1.5·targetTime` it leaves the size unchanged and
returns it. -/
theorem adjust_spec (o : ChunkSizeAdjusterOptions) (a₀ a : ChunkSizeAdjuster)
    (ts : List ℚ) (t : ℚ)
    (hmk : mkChunkSizeAdjuster o = .ok a₀) (ha : a = adjustMany a₀ ts) :
    ((0 ≤ t ∧ t < a.targetTime * 0.5) →
      adjust a t = ({ a with currentSize := min (a.currentSize * 2) a.maxSize },
        .ok (min (a.currentSize * 2) a.maxSize))) ∧
    (t > a.targetTime * 1.5 →
      adjust a t = ({ a with currentSize := max (a.currentSize / 2) a.minSize },
        .ok (max (a.currentSize / 2) a.minSize))) ∧
    ((a.targetTime * 0.5 ≤ t ∧ t ≤ a.targetTime * 1.5) →
      adjust a t = (a, .ok a.currentSize)) := by
  have htt : 0 < a.targetTime := by
    rw [ha, (adjustMany_config a₀ ts).2.2.1,
      (mk_ok_fields o a₀ hmk).2.2.2.2.1]
    exact (mk_ok_fields o a₀ hmk).2.2.2.2.2.2.2.2
  refine ⟨?_, ?_, ?_⟩
  · rintro ⟨ht0, htlt⟩
    unfold adjust
    rw [if_neg (by linarith), if_pos htlt]
  · intro hgt
    unfold adjust
    rw [if_neg (by linarith), if_neg (by linarith), if_pos hgt]
  · rintro ⟨h1, h2⟩
    unfold adjust
    rw [if_neg (by linarith), if_neg (by linarith), if_neg (by linarith)]

/-- Witness for C2: the three cases of `adjust` at a concrete valid
adjuster (`targetTime = 3000`), at upload times 100, 9000 and 3000. -/
theorem adjust_spec_witness :
    adjust ⟨1024, 1024, 256, 4096, 3000⟩ 100
      = (⟨2048, 1024, 256, 4096, 3000⟩, .ok 2048) ∧
    adjust ⟨1024, 1024, 256, 4096, 3000⟩ 9000
      = (⟨512, 1024, 256, 4096, 3000⟩, .ok 512) ∧
    adjust ⟨1024, 1024, 256, 4096, 3000⟩ 3000
      = (⟨1024, 1024, 256, 4096, 3000⟩, .ok 1024) := by
  refine ⟨?_, ?_, ?_⟩
  · have H := (adjust_spec ⟨1024, 256, 4096, some 3000⟩ ⟨1024, 1024, 256, 4096, 3000⟩
      ⟨1024, 1024, 256, 4096, 3000⟩ [] 100
      (by norm_num [mkChunkSizeAdjuster]) rfl).1 (by norm_num)
    exact H.trans (by norm_num)
  · have H := (adjust_spec ⟨1024, 256, 4096, some 3000⟩ ⟨1024, 1024, 256, 4096, 3000⟩
      ⟨1024, 1024, 256, 4096, 3000⟩ [] 9000
      (by norm_num [mkChunkSizeAdjuster]) rfl).2.1 (by norm_num)
    exact H.trans (by norm_num)
  · have H := (adjust_spec ⟨1024, 256, 4096, some 3000⟩ ⟨1024, 1024, 256, 4096, 3000⟩
      ⟨1024, 1024, 256, 4096, 3000⟩ [] 3000
      (by norm_num [mkChunkSizeAdjuster]) rfl).2.2 (by norm_num)
    exact H.trans (by norm_num)

/-- C8: construction fails exactly when `minSize > maxSize`, `initialSize`
lies outside `[minSize, maxSize]`, or the (defaulted) `targetTime` is `≤ 0`;
on success `getCurrentSize` equals `initialSize`. -/
theorem mkChunkSizeAdjuster_spec (o : ChunkSizeAdjusterOptions) :
    ((∃ e, mkChunkSizeAdjuster o = .error e) ↔
      (o.minSize > o.maxSize ∨ o.initialSize < o.minSize ∨
        o.initialSize > o.maxSize ∨ o.targetTime.getD 3000 ≤ 0)) ∧
    ∀ a, mkChunkSizeAdjuster o = .ok a → getCurrentSize a = o.initialSize := by
  constructor
  · unfold mkChunkSizeAdjuster
    split_ifs with h1 h2 h3 <;> simp_all <;> tauto
  · intro a ha
    simpa [getCurrentSize] using (mk_ok_fields o a ha).1

/-- Witness for C8: a valid construction yields `currentSize = initialSize`,
and `targetTime = 0` is rejected. -/
theorem mkChunkSizeAdjuster_spec_witness :
    getCurrentSize ⟨1024, 1024, 256, 4096, 3000⟩ = (1024 : ℚ) ∧
    ∃ e, mkChunkSizeAdjuster ⟨1024, 256, 4096, some 0⟩ = .error e := by
  constructor
  · exact (mkChunkSizeAdjuster_spec ⟨1024, 256, 4096, some 3000⟩).2 _
      (by norm_num [mkChunkSizeAdjuster])
  · exact (mkChunkSizeAdjuster_spec ⟨1024, 256, 4096, some 0⟩).1.mpr (by norm_num)

/-- C10: `adjust` with a negative upload time throws
`"uploadTimeMs cannot be negative"` and leaves the adjuster state (in
particular the current chunk size) unchanged. -/
theorem adjust_negative (a : ChunkSizeAdjuster) (t : ℚ) (h : t < 0) :
    adjust a t = (a, .error "uploadTimeMs cannot be negative") := by
  unfold adjust
  rw [if_pos h]

/-- Witness for C10 at a concrete adjuster and upload time `-1`. -/
theorem adjust_negative_witness :
    adjust ⟨1024, 1024, 256, 4096, 3000⟩ (-1)
      = (⟨1024, 1024, 256, 4096, 3000⟩, .error "uploadTimeMs cannot be negative") :=
  adjust_negative _ _ (by norm_num)

/-! ## UploadStorage (upload-storage.ts)

The IndexedDB object store keyed by `taskId` is modelled as a list of
records in which `put` replaces the record with the same key (IndexedDB
`put` semantics for a `keyPath` of `taskId`).  An uninitialized storage
(`this.db === null` or IndexedDB unsupported) is modelled by `none`. -/

/-- `FileInfo` from `upload-storage.ts`. -/
structure FileInfo where
  name : String
  size : ℕ
  type : String
  hash : Option String
  lastModified : ℕ
deriving DecidableEq, Repr

/-- `UploadRecord` from `upload-storage.ts`. -/
structure UploadRecord where
  taskId : String
  fileInfo : FileInfo
  uploadedChunks : List ℕ
  uploadToken : String
  createdAt : ℕ
  updatedAt : ℕ
deriving DecidableEq, Repr

/-- The `StorageError` codes. -/
inductive StorageErrorCode where
  | quotaExceeded
  | storageUnavailable
  | operationFailed
deriving DecidableEq, Repr

/-- `StorageError` carries a message and a code. -/
structure StorageError where
  message : String
  code : StorageErrorCode
deriving DecidableEq, Repr

/-- IndexedDB `objectStore.put` with `keyPath: "taskId"`: replace the record
with the same key, or append. -/
def putRecord : List UploadRecord → UploadRecord → List UploadRecord
  | [], r => [r]
  | x :: xs, r => if x.taskId = r.taskId then r :: xs else x :: putRecord xs r

/-- IndexedDB `objectStore.get`: the record stored under the key, if any. -/
def lookupRecord (s : List UploadRecord) (taskId : String) : Option UploadRecord :=
  s.find? (fun x => x.taskId == taskId)

/-- `UploadStorage.saveRecord`: fails with `STORAGE_UNAVAILABLE` when not
initialized, otherwise `put`s the record. -/
def saveRecord (db : Option (List UploadRecord)) (r : UploadRecord) :
    Except StorageError (List UploadRecord) :=
  match db with
  | none => .error ⟨"Storage is not initialized", .storageUnavailable⟩
  | some s => .ok (putRecord s r)

/-- `UploadStorage.getRecord`: the stored record or `null`. -/
def getRecord (db : Option (List UploadRecord)) (taskId : String) :
    Except StorageError (Option UploadRecord) :=
  match db with
  | none => .error ⟨"Storage is not initialized", .storageUnavailable⟩
  | some s => .ok (lookupRecord s taskId)

/-- A `Partial<UploadRecord>` patch: every field optional. -/
structure UploadRecordPatch where
  taskId : Option String
  fileInfo : Option FileInfo
  uploadedChunks : Option (List ℕ)
  uploadToken : Option String
  createdAt : Option ℕ
  updatedAt : Option ℕ
deriving DecidableEq, Repr

/-- The empty patch `{}`. -/
def emptyPatch : UploadRecordPatch := ⟨none, none, none, none, none, none⟩

/-- The merge performed by `updateRecord`:
`{ ...existingRecord, ...updates, taskId, updatedAt: Date.now() }` —
patch fields win over existing ones, but `taskId` is forced back to the
key and `updatedAt` is stamped with the current time. -/
def mergePatch (existing : UploadRecord) (p : UploadRecordPatch)
    (taskId : String) (now : ℕ) : UploadRecord :=
  { taskId := taskId
    fileInfo := p.fileInfo.getD existing.fileInfo
    uploadedChunks := p.uploadedChunks.getD existing.uploadedChunks
    uploadToken := p.uploadToken.getD existing.uploadToken
    createdAt := p.createdAt.getD existing.createdAt
    updatedAt := now }

/-- `UploadStorage.updateRecord`: read-modify-write.  Fails when the store is
uninitialized or the record is missing. -/
def updateRecord (db : Option (List UploadRecord)) (taskId : String)
    (p : UploadRecordPatch) (now : ℕ) : Except StorageError (List UploadRecord) :=
  match db with
  | none => .error ⟨"Storage is not initialized", .storageUnavailable⟩
  | some s =>
    match lookupRecord s taskId with
    | none => .error ⟨"Record with taskId " ++ taskId ++ " not found", .operationFailed⟩
    | some existing => .ok (putRecord s (mergePatch existing p taskId now))

/-- `UploadStorage.deleteRecord`: removes the record under the key. -/
def deleteRecord (db : Option (List UploadRecord)) (taskId : String) :
    Except StorageError (List UploadRecord) :=
  match db with
  | none => .error ⟨"Storage is not initialized", .storageUnavailable⟩
  | some s => .ok (s.filter (fun x => !(x.taskId == taskId)))

/-- `put` followed by `get` at the written key returns the written record. -/
theorem lookupRecord_putRecord (s : List UploadRecord) (r : UploadRecord) :
    lookupRecord (putRecord s r) r.taskId = some r := by
  induction s with
  | nil => simp [putRecord, lookupRecord]
  | cons x xs ih =>
    by_cases h : x.taskId = r.taskId
    · simp [putRecord, lookupRecord, h]
    · simp only [putRecord, if_neg h, lookupRecord, List.find?_cons]
      rw [show (x.taskId == r.taskId) = false by simpa using h]
      exact ih

/-- C6: on an initialized storage, `saveRecord r` followed by
`getRecord r.taskId` returns exactly `r`. -/
theorem saveRecord_getRecord (s s' : List UploadRecord) (r : UploadRecord)
    (h : saveRecord (some s) r = .ok s') :
    getRecord (some s') r.taskId = .ok (some r) := by
  simp only [saveRecord, Except.ok.injEq] at h
  subst h
  simp [getRecord, lookupRecord_putRecord]

/-- Witness for C6: a concrete record saved into the empty store is read
back unchanged. -/
theorem saveRecord_getRecord_witness :
    getRecord (some [⟨"task-1", ⟨"a.txt", 3, "text/plain", none, 11⟩, [0, 1], "tok", 5, 7⟩])
      "task-1"
      = .ok (some ⟨"task-1", ⟨"a.txt", 3, "text/plain", none, 11⟩, [0, 1], "tok", 5, 7⟩) :=
  saveRecord_getRecord [] _ _ rfl

/-- C5: `updateRecord` on a stored record `r` is read-modify-write: the
stored result is `mergePatch r p`, whose `taskId` equals `r.taskId` (even
when the patch supplies a different one), whose `updatedAt` is stamped with
the current time (≥ `r.updatedAt` under a monotone clock), and whose other
fields agree with `r` wherever the patch is absent; the empty patch changes
nothing but `updatedAt`. -/
theorem updateRecord_spec (s : List UploadRecord) (r : UploadRecord)
    (p : UploadRecordPatch) (now : ℕ)
    (hr : lookupRecord s r.taskId = some r) (hnow : r.updatedAt ≤ now) :
    updateRecord (some s) r.taskId p now = .ok (putRecord s (mergePatch r p r.taskId now)) ∧
    lookupRecord (putRecord s (mergePatch r p r.taskId now)) r.taskId
      = some (mergePatch r p r.taskId now) ∧
    (mergePatch r p r.taskId now).taskId = r.taskId ∧
    (mergePatch r p r.taskId now).updatedAt = now ∧
    r.updatedAt ≤ (mergePatch r p r.taskId now).updatedAt ∧
    (p.fileInfo = none → (mergePatch r p r.taskId now).fileInfo = r.fileInfo) ∧
    (p.uploadedChunks = none →
      (mergePatch r p r.taskId now).uploadedChunks = r.uploadedChunks) ∧
    (p.uploadToken = none → (mergePatch r p r.taskId now).uploadToken = r.uploadToken) ∧
    (p.createdAt = none → (mergePatch r p r.taskId now).createdAt = r.createdAt) ∧
    (p = emptyPatch → mergePatch r p r.taskId now = { r with updatedAt := now }) := by
  refine ⟨?_, ?_, rfl, rfl, hnow, ?_, ?_, ?_, ?_, ?_⟩
  · simp [updateRecord, hr]
  · have := lookupRecord_putRecord s (mergePatch r p r.taskId now)
    simpa [mergePatch] using this
  · intro h; simp [mergePatch, h]
  · intro h; simp [mergePatch, h]
  · intro h; simp [mergePatch, h]
  · intro h; simp [mergePatch, h]
  · intro h; subst h; simp [mergePatch, emptyPatch]

/-- Witness for C5 at a concrete stored record, empty patch and a later
clock value. -/
theorem updateRecord_spec_witness :
    updateRecord
        (some [⟨"task-1", ⟨"a.txt", 3, "text/plain", none, 11⟩, [0, 1], "tok", 5, 7⟩])
        "task-1" emptyPatch 10
      = .ok [⟨"task-1", ⟨"a.txt", 3, "text/plain", none, 11⟩, [0, 1], "tok", 5, 10⟩] ∧
    mergePatch ⟨"task-1", ⟨"a.txt", 3, "text/plain", none, 11⟩, [0, 1], "tok", 5, 7⟩
        emptyPatch "task-1" 10
      = ⟨"task-1", ⟨"a.txt", 3, "text/plain", none, 11⟩, [0, 1], "tok", 5, 10⟩ := by
  have H := updateRecord_spec
    [⟨"task-1", ⟨"a.txt", 3, "text/plain", none, 11⟩, [0, 1], "tok", 5, 7⟩]
    ⟨"task-1", ⟨"a.txt", 3, "text/plain", none, 11⟩, [0, 1], "tok", 5, 7⟩
    emptyPatch 10 (by rfl) (by norm_num)
  exact ⟨H.1, H.2.2.2.2.2.2.2.2.2 rfl⟩

/-! ## Event bus (event-bus.ts)

`createEventBus()` returns `mitt<UploadEvents>()`.  The mitt emitter keeps a
`Map` from event type to an array of handlers; `on` appends to the array
(creating it on first registration) and `emit` iterates the array with
`handlers.slice().map(handler => handler(evt))`, then does the same for the
`"*"` wildcard array.  There is no try/catch around handler invocation, so a
throwing handler aborts the `.map` loop and the exception propagates out of
`emit`.  A handler is modelled by an id together with whether it throws when
invoked; `emitCalls` returns the ids invoked and whether `emit` threw. -/

/-- An event handler: an identity plus whether invoking it throws. -/
structure Handler where
  id : ℕ
  throws : Bool
deriving DecidableEq, Repr

/-- mitt `on`: append the handler to the type's array, creating the entry on
first registration. -/
def busOn : List (String × List Handler) → String → Handler →
    List (String × List Handler)
  | [], t, h => [(t, [h])]
  | (k, hs) :: rest, t, h =>
    if k = t then (k, hs ++ [h]) :: rest else (k, hs) :: busOn rest t h

/-- The handler array registered for a type (empty when absent). -/
def busGet : List (String × List Handler) → String → List Handler
  | [], _ => []
  | (k, hs) :: rest, t => if k = t then hs else busGet rest t

/-- Register a list of handlers for one topic, in order. -/
def registerAll (b : List (String × List Handler)) (t : String)
    (hs : List Handler) : List (String × List Handler) :=
  hs.foldl (fun b h => busOn b t h) b

/-- Invoke an array of handlers in order the way `Array.prototype.map` does:
stop at the first thrown exception.  Returns the invoked ids and whether an
exception escaped. -/
def runHandlers : List Handler → List ℕ × Bool
  | [] => ([], false)
  | h :: rest =>
    if h.throws then ([h.id], true)
    else (h.id :: (runHandlers rest).1, (runHandlers rest).2)

/-- mitt `emit`: run the type's handlers, then (if no exception escaped) the
wildcard handlers.  Returns all invoked ids and whether `emit` threw. -/
def emitCalls (b : List (String × List Handler)) (t : String) : List ℕ × Bool :=
  if (runHandlers (busGet b t)).2 then
    ((runHandlers (busGet b t)).1, true)
  else
    ((runHandlers (busGet b t)).1 ++ (runHandlers (busGet b "*")).1,
      (runHandlers (busGet b "*")).2)

/-- The ids invoked by a handler array: everything up to and including the
first throwing handler. -/
def callsUntilThrow : List Handler → List ℕ
  | [] => []
  | h :: rest => if h.throws then [h.id] else h.id :: callsUntilThrow rest

/-- `runHandlers` in terms of `callsUntilThrow` and `List.any`. -/
theorem runHandlers_spec (hs : List Handler) :
    runHandlers hs = (callsUntilThrow hs, hs.any (fun h => h.throws)) := by
  induction hs with
  | nil => rfl
  | cons h rest ih =>
    by_cases hth : h.throws
    · simp [runHandlers, callsUntilThrow, hth]
    · simp [runHandlers, callsUntilThrow, hth, ih]

/-- Registering for `t` appends to `t`'s array. -/
theorem busGet_busOn_same (b : List (String × List Handler)) (t : String)
    (h : Handler) : busGet (busOn b t h) t = busGet b t ++ [h] := by
  induction b with
  | nil => simp [busOn, busGet]
  | cons x rest ih =>
    obtain ⟨k, hs⟩ := x
    by_cases hk : k = t
    · simp [busOn, busGet, hk]
    · simp [busOn, busGet, hk, ih]

/-- Registering for `t` leaves other types' arrays unchanged. -/
theorem busGet_busOn_other (b : List (String × List Handler)) (t u : String)
    (h : Handler) (hne : u ≠ t) : busGet (busOn b t h) u = busGet b u := by
  induction b with
  | nil => simp [busOn, busGet, Ne.symm hne]
  | cons x rest ih =>
    obtain ⟨k, hs⟩ := x
    by_cases hk : k = t
    · subst hk
      simp [busOn, busGet, Ne.symm hne]
    · by_cases hku : k = u <;> simp [busOn, busGet, hk, hku, ih, hne]

/-- Registering a handler list for `t` appends it, in order, to `t`'s array. -/
theorem busGet_registerAll_same (hs : List Handler) (b : List (String × List Handler))
    (t : String) : busGet (registerAll b t hs) t = busGet b t ++ hs := by
  induction hs generalizing b with
  | nil => simp [registerAll]
  | cons h rest ih =>
    simp only [registerAll, List.foldl_cons]
    rw [show List.foldl (fun b h => busOn b t h) (busOn b t h) rest
        = registerAll (busOn b t h) t rest from rfl]
    rw [ih, busGet_busOn_same]
    simp

/-- Registering a handler list for `t` leaves other types unchanged. -/
theorem busGet_registerAll_other (hs : List Handler) (b : List (String × List Handler))
    (t u : String) (hne : u ≠ t) :
    busGet (registerAll b t hs) u = busGet b u := by
  induction hs generalizing b with
  | nil => simp [registerAll]
  | cons h rest ih =>
    simp only [registerAll, List.foldl_cons]
    rw [show List.foldl (fun b h => busOn b t h) (busOn b t h) rest
        = registerAll (busOn b t h) t rest from rfl]
    rw [ih, busGet_busOn_other _ _ _ _ hne]

/-- When no handler throws, every handler is called. -/
theorem callsUntilThrow_all (hs : List Handler)
    (h : ∀ x ∈ hs, x.throws = false) :
    callsUntilThrow hs = hs.map Handler.id := by
  induction hs with
  | nil => rfl
  | cons x rest ih =>
    have hx := h x (List.mem_cons_self x rest)
    simp only [callsUntilThrow, hx, Bool.false_eq_true, ite_false, List.map_cons]
    rw [ih fun y hy => h y (List.mem_cons_of_mem x hy)]

/-- The invoked ids are always an order-preserving prefix of the registered
ids. -/
theorem callsUntilThrow_isPrefix (hs : List Handler) :
    callsUntilThrow hs <+: hs.map Handler.id := by
  induction hs with
  | nil => simp [callsUntilThrow]
  | cons x rest ih =>
    by_cases hx : x.throws
    · simp only [callsUntilThrow, hx, ite_true, List.map_cons]
      exact ⟨rest.map Handler.id, rfl⟩
    · simp only [callsUntilThrow, hx, Bool.false_eq_true, ite_false, List.map_cons]
      obtain ⟨s2, hs2⟩ := ih
      exact ⟨s2, by rw [List.cons_append, hs2]⟩

/-- C4 (counterexample): on the bus with handlers 1 (throwing) and 2
registered for `"progress"` in that order, `emit` invokes only handler 1 and
rethrows — the exception prevents handler 2 from being invoked, contrary to
the claim's isolation property. -/
theorem eventBus_isolation_cx :
    busGet (busOn (busOn [] "progress" ⟨1, true⟩) "progress" ⟨2, false⟩) "progress"
      = [⟨1, true⟩, ⟨2, false⟩] ∧
    emitCalls (busOn (busOn [] "progress" ⟨1, true⟩) "progress" ⟨2, false⟩) "progress"
      = ([1], true) ∧
    2 ∉ (emitCalls (busOn (busOn [] "progress" ⟨1, true⟩) "progress" ⟨2, false⟩)
      "progress").1 := by
  refine ⟨rfl, rfl, ?_⟩
  simp [emitCalls, busOn, busGet, runHandlers]

/-- C4 (amended): for handlers registered for one topic, `emit` invokes them
synchronously in registration order, but a thrown exception propagates out of
`emit` and stops the invocation: exactly the handlers up to and including the
first throwing one run; all of them run iff none throws. -/
theorem eventBus_emit_order (t : String) (hs : List Handler) (hne : t ≠ "*") :
    (emitCalls (registerAll [] t hs) t).1 = callsUntilThrow hs ∧
    (emitCalls (registerAll [] t hs) t).1 <+: hs.map Handler.id ∧
    ((∀ x ∈ hs, x.throws = false) →
      (emitCalls (registerAll [] t hs) t).1 = hs.map Handler.id) ∧
    (emitCalls (registerAll [] t hs) t).2 = hs.any (fun h => h.throws) := by
  have hgett : busGet (registerAll [] t hs) t = hs := by
    rw [busGet_registerAll_same]; rfl
  have hgetw : busGet (registerAll [] t hs) "*" = [] := by
    rw [busGet_registerAll_other _ _ _ _ (Ne.symm hne)]; rfl
  have hfirst : (emitCalls (registerAll [] t hs) t).1 = callsUntilThrow hs := by
    unfold emitCalls
    rw [hgett, hgetw, runHandlers_spec]
    by_cases hany : hs.any (fun h => h.throws) <;> simp [hany, runHandlers]
  refine ⟨hfirst, hfirst ▸ callsUntilThrow_isPrefix hs, ?_, ?_⟩
  · intro hnothrow
    rw [hfirst, callsUntilThrow_all hs hnothrow]
  · unfold emitCalls
    rw [hgett, hgetw, runHandlers_spec]
    by_cases hany : hs.any (fun h => h.throws) <;> simp [hany, runHandlers]

/-- Witness for the amended C4 theorem: three handlers, the second throws —
handlers 1 and 2 are invoked in order, handler 3 is not, and `emit`
rethrows. -/
theorem eventBus_emit_order_witness :
    (emitCalls (registerAll [] "progress" [⟨1, false⟩, ⟨2, true⟩, ⟨3, false⟩])
      "progress").1 = [1, 2] ∧
    (emitCalls (registerAll [] "progress" [⟨1, false⟩, ⟨2, true⟩, ⟨3, false⟩])
      "progress").2 = true := by
  have H := eventBus_emit_order "progress" [⟨1, false⟩, ⟨2, true⟩, ⟨3, false⟩]
    (by simp)
  exact ⟨H.1.trans (by rfl), H.2.2.2.trans (by rfl)⟩

/-! ## UploadManager.resumeTask (upload-manager.ts)

The manager's task registry (`this.tasks`, a `Map` from task id to task) is
modelled by the insertion-ordered list of registered task ids.  `resumeTask`
validates availability, record existence and the re-selected file's
`name`/`size`/`type` (in that order) before it constructs the task and
touches the registry, so every validation failure leaves both the registry
and the storage unchanged.  The constructed `UploadTask` itself lives
outside the embedded sources; the spec states resume "constructs a new task
with preserved id", so the success branch registers the resumed `taskId` and
deletes the old record. -/

/-- The re-selected `File` passed to `resumeTask`. -/
structure ResumeFile where
  name : String
  size : ℕ
  type : String
  lastModified : ℕ
deriving DecidableEq, Repr

/-- `UploadManager.resumeTask(taskId, file)`: returns the registry, the
store and the thrown error (if any) after the call. -/
def resumeTask (storageAvailable : Bool) (store : List UploadRecord)
    (tasks : List String) (taskId : String) (file : ResumeFile) :
    List String × List UploadRecord × Option String :=
  if storageAvailable = false then
    (tasks, store, some "Storage is not available - cannot resume task")
  else
    match lookupRecord store taskId with
    | none => (tasks, store, some ("No unfinished task found with ID: " ++ taskId))
    | some record =>
      if file.name ≠ record.fileInfo.name then
        (tasks, store, some ("File name mismatch: expected \"" ++ record.fileInfo.name
          ++ "\", got \"" ++ file.name ++ "\""))
      else if file.size ≠ record.fileInfo.size then
        (tasks, store, some ("File size mismatch: expected "
          ++ toString record.fileInfo.size ++ ", got " ++ toString file.size))
      else if file.type ≠ record.fileInfo.type then
        (tasks, store, some ("File type mismatch: expected \"" ++ record.fileInfo.type
          ++ "\", got \"" ++ file.type ++ "\""))
      else
        (tasks ++ [taskId], store.filter (fun x => !(x.taskId == taskId)), none)

/-- C7: resuming with a re-selected file whose name, size or type differs
from the stored record throws the corresponding specific error (checked in
name, size, type order) and leaves the task registry and the storage
unchanged — no task is created. -/
theorem resumeTask_mismatch (store : List UploadRecord) (tasks : List String)
    (taskId : String) (record : UploadRecord) (file : ResumeFile)
    (hrec : lookupRecord store taskId = some record)
    (hmis : file.name ≠ record.fileInfo.name ∨ file.size ≠ record.fileInfo.size ∨
      file.type ≠ record.fileInfo.type) :
    ((resumeTask true store tasks taskId file).1 = tasks ∧
      (resumeTask true store tasks taskId file).2.1 = store ∧
      ∃ msg, (resumeTask true store tasks taskId file).2.2 = some msg) ∧
    (file.name ≠ record.fileInfo.name →
      (resumeTask true store tasks taskId file).2.2
        = some ("File name mismatch: expected \"" ++ record.fileInfo.name
            ++ "\", got \"" ++ file.name ++ "\"")) ∧
    (file.name = record.fileInfo.name → file.size ≠ record.fileInfo.size →
      (resumeTask true store tasks taskId file).2.2
        = some ("File size mismatch: expected " ++ toString record.fileInfo.size
            ++ ", got " ++ toString file.size)) ∧
    (file.name = record.fileInfo.name → file.size = record.fileInfo.size →
      file.type ≠ record.fileInfo.type →
      (resumeTask true store tasks taskId file).2.2
        = some ("File type mismatch: expected \"" ++ record.fileInfo.type
            ++ "\", got \"" ++ file.type ++ "\"")) := by
  unfold resumeTask
  rw [hrec]
  simp only [Bool.true_eq_false, if_false]
  by_cases h1 : file.name = record.fileInfo.name
  · by_cases h2 : file.size = record.fileInfo.size
    · by_cases h3 : file.type = record.fileInfo.type
      · exact absurd (by tauto) (by simpa [h1, h2, h3] using hmis)
      · simp [h1, h2, h3]
    · simp [h1, h2]
  · simp [h1]

/-- Witness for C7: a stored 100-byte record resumed with a 90-byte file of
the same name and type throws the size-mismatch error and leaves the
registry unchanged. -/
theorem resumeTask_mismatch_witness :
    (resumeTask true
        [⟨"t1", ⟨"a.txt", 100, "text/plain", none, 0⟩, [0], "tok", 1, 2⟩]
        ["existing-task"] "t1" ⟨"a.txt", 90, "text/plain", 0⟩).1
      = ["existing-task"] ∧
    (resumeTask true
        [⟨"t1", ⟨"a.txt", 100, "text/plain", none, 0⟩, [0], "tok", 1, 2⟩]
        ["existing-task"] "t1" ⟨"a.txt", 90, "text/plain", 0⟩).2.2
      = some "File size mismatch: expected 100, got 90" := by
  have H := resumeTask_mismatch
    [⟨"t1", ⟨"a.txt", 100, "text/plain", none, 0⟩, [0], "tok", 1, 2⟩]
    ["existing-task"] "t1"
    ⟨"t1", ⟨"a.txt", 100, "text/plain", none, 0⟩, [0], "tok", 1, 2⟩
    ⟨"a.txt", 90, "text/plain", 0⟩ (by rfl) (by simp)
  refine ⟨H.1.1, ?_⟩
  have := H.2.2.1 rfl (by simp)
  rw [this]
  rfl

/-! ## Server ranged read (`GET /upload/files/:fileId`)

`UploadController.getFile` parses the `Range: bytes=s-e` header, clamps the
end to `size - 1`, and for an in-range start responds 206 with
`Content-Range: bytes s-e/size`, `Content-Length: e - s + 1` and the stream
produced by `UploadService.getFileStream`.  A file's bytes are the
concatenation of its chunk blobs in manifest order; byte values are
irrelevant to the argument, so a chunk is a `List ℕ`. -/

/-- Modelled from the spec: the slice of one chunk blob (stored at absolute
offset `off`) that overlaps the requested absolute byte range `[s, e1)`
("compute for each chunk its overlap with `[start, end]` and read only the
overlapping slice").  `UploadService.getFileStream` itself is not among the
embedded sources — only its caller `UploadController.getFile` is. -/
def chunkOverlap (s e1 off : ℕ) (chunk : List ℕ) : List ℕ :=
  (chunk.drop (max s off - off)).take (min e1 (off + chunk.length) - max s off)

/-- Modelled from the spec: concatenate the overlapping slices of the
ordered chunks, tracking each chunk's absolute offset. -/
def assembleRange (s e1 : ℕ) : ℕ → List (List ℕ) → List ℕ
  | _, [] => []
  | off, c :: cs => chunkOverlap s e1 off c ++ assembleRange s e1 (off + c.length) cs

/-- Modelled from the spec: `UploadService.getFileStream(fileId, range?)` —
the whole file in chunk order, or the requested inclusive byte range
assembled from the per-chunk overlaps. -/
def getFileStream (chunks : List (List ℕ)) (range : Option (ℕ × ℕ)) : List ℕ :=
  match range with
  | none => chunks.flatten
  | some (s, e) => assembleRange s (e + 1) 0 chunks

/-- The response assembled by `UploadController.getFile`: status, the
`Content-Range` header (if set), the `Content-Length` header and the body. -/
structure FileResponse where
  status : ℕ
  contentRange : Option String
  contentLength : ℕ
  body : List ℕ
deriving DecidableEq, Repr

/-- `UploadController.getFile` for a completed file, given the parsed
`Range` header groups (`bytes=s-e` or `bytes=s-`): the end defaults to and
is clamped at `size - 1`, a start beyond the file disables the range, a
ranged request responds 206 with `Content-Range`/`Content-Length`, and the
body comes from `getFileStream`. -/
def getFile (chunks : List (List ℕ)) (rangeHeader : Option (ℕ × Option ℕ)) :
    FileResponse :=
  match rangeHeader with
  | some (s, eOpt) =>
    if s < chunks.flatten.length then
      { status := 206
        contentRange := some ("bytes " ++ toString s ++ "-"
          ++ toString (min (eOpt.getD (chunks.flatten.length - 1)) (chunks.flatten.length - 1))
          ++ "/" ++ toString chunks.flatten.length)
        contentLength :=
          min (eOpt.getD (chunks.flatten.length - 1)) (chunks.flatten.length - 1) - s + 1
        body := getFileStream chunks
          (some (s, min (eOpt.getD (chunks.flatten.length - 1)) (chunks.flatten.length - 1))) }
    else
      { status := 200, contentRange := none, contentLength := chunks.flatten.length,
        body := getFileStream chunks none }
  | none =>
    { status := 200, contentRange := none, contentLength := chunks.flatten.length,
      body := getFileStream chunks none }

/-- The per-chunk overlap assembly equals the corresponding slice of the
concatenation, for every starting offset. -/
theorem assembleRange_eq (s e1 : ℕ) (chunks : List (List ℕ)) :
    ∀ off : ℕ, assembleRange s e1 off chunks
      = (chunks.flatten.drop (s - off)).take
          (min e1 (off + chunks.flatten.length) - max s off) := by
  induction chunks with
  | nil => intro off; simp [assembleRange]
  | cons c cs ih =>
    intro off
    simp only [assembleRange, List.flatten_cons, List.length_append]
    rw [ih (off + c.length), List.drop_append_eq_append_drop,
      List.take_append_eq_append_take]
    have hsub : s - off - c.length = s - (off + c.length) := Nat.sub_sub s off c.length
    rw [hsub]
    congr 1
    · unfold chunkOverlap
      have h1 : max s off - off = s - off := by omega
      rw [h1, List.take_eq_take]
      simp only [List.length_drop]
      omega
    · rw [List.take_eq_take]
      simp only [List.length_drop]
      omega

/-- C3: for a completed file of size `N` assembled from its ordered chunks
and any `0 ≤ s ≤ e < N`, `GET /files/{id}` with `Range: bytes=s-e` responds
206 with `Content-Range: bytes s-e/N`, `Content-Length = e - s + 1`, and a
body equal to the `e - s + 1` bytes of the chunk concatenation starting at
offset `s`. -/
theorem getFile_range_spec (chunks : List (List ℕ)) (s e : ℕ)
    (h1 : s ≤ e) (h2 : e < chunks.flatten.length) :
    (getFile chunks (some (s, some e))).status = 206 ∧
    (getFile chunks (some (s, some e))).contentRange
      = some ("bytes " ++ toString s ++ "-" ++ toString e ++ "/"
          ++ toString chunks.flatten.length) ∧
    (getFile chunks (some (s, some e))).contentLength = e - s + 1 ∧
    (getFile chunks (some (s, some e))).body = (chunks.flatten.drop s).take (e - s + 1) := by
  have hs : s < chunks.flatten.length := lt_of_le_of_lt h1 h2
  have hmin : min e (chunks.flatten.length - 1) = e := by omega
  have hred : getFile chunks (some (s, some e)) =
      { status := 206
        contentRange := some ("bytes " ++ toString s ++ "-" ++ toString e ++ "/"
          ++ toString chunks.flatten.length)
        contentLength := e - s + 1
        body := assembleRange s (e + 1) 0 chunks } := by
    simp only [getFile, Option.getD_some, hs, if_true, hmin, getFileStream]
  rw [hred]
  refine ⟨rfl, rfl, rfl, ?_⟩
  show assembleRange s (e + 1) 0 chunks = (chunks.flatten.drop s).take (e - s + 1)
  rw [assembleRange_eq, Nat.sub_zero, Nat.zero_add,
    show max s 0 = s from by omega,
    show min (e + 1) chunks.flatten.length = e + 1 from by omega,
    show e + 1 - s = e - s + 1 from by omega]

/-- Witness for C3: a 10-byte file assembled from chunks of sizes 4, 2 and
4, read with `Range: bytes=3-6`. -/
theorem getFile_range_spec_witness :
    (getFile [[0, 1, 2, 3], [4, 5], [6, 7, 8, 9]] (some (3, some 6))).status = 206 ∧
    (getFile [[0, 1, 2, 3], [4, 5], [6, 7, 8, 9]] (some (3, some 6))).contentRange
      = some "bytes 3-6/10" ∧
    (getFile [[0, 1, 2, 3], [4, 5], [6, 7, 8, 9]] (some (3, some 6))).contentLength = 4 ∧
    (getFile [[0, 1, 2, 3], [4, 5], [6, 7, 8, 9]] (some (3, some 6))).body
      = [3, 4, 5, 6] := by
  have H := getFile_range_spec [[0, 1, 2, 3], [4, 5], [6, 7, 8, 9]] 3 6
    (by norm_num) (by simp)
  refine ⟨H.1, H.2.1.trans (by rfl), H.2.2.1.trans (by norm_num), H.2.2.2.trans (by rfl)⟩

/-! ## ConcurrencyController (concurrency-controller.ts) and p-limit

The controller delegates to a `p-limit` limiter: `run` starts the unit
immediately when the limiter's active count is below its concurrency and
queues it otherwise (FIFO); when an active unit finishes, the limiter that
ran it dequeues and starts its next queued unit; `clearQueue` replaces the
*current* limiter's queue with an empty one.  Crucially, `updateLimit(n)`
(for `n > 0`, after `this.limiter = pLimit(newLimit)`) installs a **fresh**
limiter: units already queued on the replaced limiter keep draining behind
that limiter's own active units, untouched by the new limiter's `clearQueue`
and invisible to its `pendingCount`.  `updateLimit(n)` with `n ≤ 0` throws
before any mutation.

Work units are identified by `ℕ` ids; the model records, per limiter, the
active and queued ids, and globally which units ever started and which were
discarded from a queue. -/

/-- One p-limit limiter: its fixed concurrency, active units and FIFO
queue. -/
structure Limiter where
  limit : ℕ
  active : List ℕ
  queue : List ℕ
deriving DecidableEq, Repr

/-- The controller state: the current limiter, the superseded limiters that
still hold units, and the history of started and discarded units. -/
structure CCState where
  current : Limiter
  old : List Limiter
  started : List ℕ
  discarded : List ℕ
deriving DecidableEq, Repr

/-- `new ConcurrencyController({ limit: n })`. -/
def initCC (n : ℕ) : CCState := ⟨⟨n, [], []⟩, [], [], []⟩

/-- The observable controller commands: submit a unit via `run`, a running
unit finishing, `updateLimit`, `clearQueue`. -/
inductive CCmd where
  | run (u : ℕ)
  | complete (u : ℕ)
  | updateLimit (n : ℕ)
  | clearQueue
deriving DecidableEq, Repr

/-- `run(fn)`: start on the current limiter when below its limit, else
enqueue. -/
def stepRun (σ : CCState) (u : ℕ) : CCState :=
  if σ.current.active.length < σ.current.limit then
    { σ with current := { σ.current with active := σ.current.active ++ [u] },
             started := σ.started ++ [u] }
  else
    { σ with current := { σ.current with queue := σ.current.queue ++ [u] } }

/-- p-limit's `next()` on the limiter that ran `u`: drop `u` from the active
set and start the head of the queue, if any.  Returns the limiter and the
newly started units. -/
def completeLimiter (L : Limiter) (u : ℕ) : Limiter × List ℕ :=
  match L.queue with
  | [] => ({ L with active := L.active.erase u }, [])
  | v :: q => ({ L with active := L.active.erase u ++ [v], queue := q }, [v])

/-- Completion routed to the first superseded limiter that is running the
unit. -/
def completeInList : List Limiter → ℕ → List Limiter × List ℕ
  | [], _ => ([], [])
  | L :: rest, u =>
    if u ∈ L.active then
      ((completeLimiter L u).1 :: rest, (completeLimiter L u).2)
    else
      (L :: (completeInList rest u).1, (completeInList rest u).2)

/-- A unit finishing: its limiter (current or superseded) completes it. -/
def stepComplete (σ : CCState) (u : ℕ) : CCState :=
  if u ∈ σ.current.active then
    { σ with current := (completeLimiter σ.current u).1,
             started := σ.started ++ (completeLimiter σ.current u).2 }
  else
    { σ with old := (completeInList σ.old u).1,
             started := σ.started ++ (completeInList σ.old u).2 }

/-- `updateLimit(n)`: throws (mutating nothing) for `n ≤ 0`; otherwise
installs a fresh limiter, the previous one continuing to drain as a
superseded limiter. -/
def stepUpdateLimit (σ : CCState) (n : ℕ) : CCState :=
  if n = 0 then σ
  else { σ with current := ⟨n, [], []⟩, old := σ.old ++ [σ.current] }

/-- `clearQueue()`: empties the current limiter's queue; the cleared units
never run. -/
def stepClearQueue (σ : CCState) : CCState :=
  { σ with current := { σ.current with queue := [] },
           discarded := σ.discarded ++ σ.current.queue }

/-- One command. -/
def ccStep (σ : CCState) : CCmd → CCState
  | .run u => stepRun σ u
  | .complete u => stepComplete σ u
  | .updateLimit n => stepUpdateLimit σ n
  | .clearQueue => stepClearQueue σ

/-- A command sequence. -/
def ccExec (σ : CCState) (cs : List CCmd) : CCState := cs.foldl ccStep σ

/-- `get pendingCount`: reads `this.limiter.pendingCount` — the *current*
limiter's queue only. -/
def pendingCount (σ : CCState) : ℕ := σ.current.queue.length

/-- A unit that appears in no queue, no active set and has not started. -/
def untracked (σ : CCState) (x : ℕ) : Prop :=
  x ∉ σ.current.queue ∧ x ∉ σ.current.active ∧
  (∀ L ∈ σ.old, x ∉ L.active ∧ x ∉ L.queue) ∧ x ∉ σ.started

/-- Completing a unit only moves ids already held by the limiter: the
resulting active set draws from the old active set and queue, the resulting
queue from the old queue, and the started list from the old queue. -/
theorem completeLimiter_mem (L : Limiter) (u x : ℕ) :
    (x ∈ (completeLimiter L u).1.active → x ∈ L.active ∨ x ∈ L.queue) ∧
    (x ∈ (completeLimiter L u).1.queue → x ∈ L.queue) ∧
    (x ∈ (completeLimiter L u).2 → x ∈ L.queue) := by
  unfold completeLimiter
  cases hq : L.queue with
  | nil =>
    simp only [hq]
    exact ⟨fun hx => .inl (List.mem_of_mem_erase hx),
      fun hx => absurd hx (List.not_mem_nil x),
      fun hx => absurd hx (List.not_mem_nil x)⟩
  | cons v q =>
    simp only [hq]
    refine ⟨fun hx => ?_, fun hx => ?_, fun hx => ?_⟩
    · rcases List.mem_append.mp hx with h | h
      · exact .inl (List.mem_of_mem_erase h)
      · simp only [List.mem_singleton] at h
        subst h
        exact .inr (List.mem_cons_self x q)
    · exact List.mem_cons_of_mem v hx
    · simp only [List.mem_singleton] at hx
      subst hx
      exact List.mem_cons_self x q

/-- A unit held by no superseded limiter is still held by none after a
completion is routed through them, and is not among the units the
completion starts. -/
theorem completeInList_untracked (u x : ℕ) :
    ∀ ls : List Limiter, (∀ M ∈ ls, x ∉ M.active ∧ x ∉ M.queue) →
      (∀ L ∈ (completeInList ls u).1, x ∉ L.active ∧ x ∉ L.queue) ∧
      x ∉ (completeInList ls u).2 := by
  intro ls
  induction ls with
  | nil => intro _; simp [completeInList]
  | cons L rest ih =>
    intro hM
    have hL := hM L (List.mem_cons_self L rest)
    have hrest := ih (fun M hMm => hM M (List.mem_cons_of_mem L hMm))
    unfold completeInList
    by_cases hu : u ∈ L.active
    · simp only [hu, if_true]
      obtain ⟨c1, c2, c3⟩ := completeLimiter_mem L u x
      refine ⟨?_, fun hx => hL.2 (c3 hx)⟩
      intro L' hL'
      rcases List.mem_cons.mp hL' with h | h
      · subst h
        exact ⟨fun hx => (c1 hx).elim hL.1 hL.2, fun hx => hL.2 (c2 hx)⟩
      · exact hM L' (List.mem_cons_of_mem L h)
    · simp only [hu, if_false]
      refine ⟨?_, hrest.2⟩
      intro L' hL'
      rcases List.mem_cons.mp hL' with h | h
      · subst h; exact hL
      · exact hrest.1 L' h

/-- Any command other than `run x` keeps an untracked unit `x` untracked:
`x` can only enter the system through its own submission. -/
theorem ccStep_untracked (σ : CCState) (c : CCmd) (x : ℕ)
    (h : untracked σ x) (hc : c ≠ .run x) : untracked (ccStep σ c) x := by
  obtain ⟨hq, ha, hold, hst⟩ := h
  cases c with
  | run u =>
    have hux : u ≠ x := fun he => hc (by rw [he])
    unfold ccStep stepRun
    by_cases hlt : σ.current.active.length < σ.current.limit
    · simp only [hlt, if_true]
      refine ⟨hq, ?_, hold, ?_⟩ <;>
        · intro hx
          rcases List.mem_append.mp hx with hmem | hmem
          · first | exact ha hmem | exact hst hmem
          · simp only [List.mem_singleton] at hmem
            exact hux hmem.symm
    · simp only [hlt, if_false]
      refine ⟨?_, ha, hold, hst⟩
      intro hx
      rcases List.mem_append.mp hx with hmem | hmem
      · exact hq hmem
      · simp only [List.mem_singleton] at hmem
        exact hux hmem.symm
  | complete u =>
    unfold ccStep stepComplete
    by_cases hu : u ∈ σ.current.active
    · simp only [hu, if_true]
      obtain ⟨c1, c2, c3⟩ := completeLimiter_mem σ.current u x
      refine ⟨fun hx => hq (c2 hx), fun hx => (c1 hx).elim ha hq, hold, ?_⟩
      intro hx
      rcases List.mem_append.mp hx with hmem | hmem
      · exact hst hmem
      · exact hq (c3 hmem)
    · simp only [hu, if_false]
      have H := completeInList_untracked u x σ.old hold
      refine ⟨hq, ha, H.1, ?_⟩
      intro hx
      rcases List.mem_append.mp hx with hmem | hmem
      · exact hst hmem
      · exact H.2 hmem
  | updateLimit n =>
    unfold ccStep stepUpdateLimit
    by_cases hn : n = 0
    · simp only [hn, if_true]
      exact ⟨hq, ha, hold, hst⟩
    · simp only [hn, if_false]
      refine ⟨List.not_mem_nil x, List.not_mem_nil x, ?_, hst⟩
      intro L hL
      rcases List.mem_append.mp hL with hmem | hmem
      · exact hold L hmem
      · simp only [List.mem_singleton] at hmem
        subst hmem
        exact ⟨ha, hq⟩
  | clearQueue =>
    unfold ccStep stepClearQueue
    exact ⟨List.not_mem_nil x, ha, hold, hst⟩

/-- An untracked unit never starts under any continuation that does not
resubmit it. -/
theorem ccExec_untracked (x : ℕ) :
    ∀ (cs : List CCmd) (σ : CCState), untracked σ x → CCmd.run x ∉ cs →
      untracked (ccExec σ cs) x := by
  intro cs
  induction cs with
  | nil => intro σ h _; exact h
  | cons c cs ih =>
    intro σ h hcs
    have hc : c ≠ .run x := fun he => hcs (he ▸ List.mem_cons_self c cs)
    have hcs2 : CCmd.run x ∉ cs := fun hmem => hcs (List.mem_cons_of_mem c hmem)
    exact ih (ccStep σ c) (ccStep_untracked σ c x h hc) hcs2

/-- C9 (counterexample): with limit 1, submit units 1 and 2 (unit 2 queues),
then `updateLimit 2`.  Unit 2 was submitted via `run` and has not started,
yet the following `clearQueue` discards nothing (the fresh limiter's queue
is empty), and when unit 1 later completes, unit 2 starts anyway — contrary
to the claim that `clearQueue` removes all pending units at any point of the
controller's lifetime, updateLimit calls included. -/
theorem clearQueue_cx :
    2 ∉ (ccExec (initCC 1) [.run 1, .run 2, .updateLimit 2]).started ∧
    (ccExec (initCC 1) [.run 1, .run 2, .updateLimit 2, .clearQueue]).discarded = [] ∧
    2 ∈ (ccExec (initCC 1)
      [.run 1, .run 2, .updateLimit 2, .clearQueue, .complete 1]).started := by
  decide

/-- C9 (amended): `clearQueue()` discards exactly the units pending on the
*current* limiter — the ones submitted via `run` and not yet started since
the most recent `updateLimit` (or construction): `pendingCount` drops to 0,
each such unit lands in the discarded set and never executes under any
continuation that does not resubmit it, while active units (on any limiter)
and queues of superseded limiters are untouched. -/
theorem clearQueue_spec (σ : CCState) (u : ℕ) (cs : List CCmd)
    (hq : u ∈ σ.current.queue)
    (hna : u ∉ σ.current.active)
    (hold : ∀ L ∈ σ.old, u ∉ L.active ∧ u ∉ L.queue)
    (hst : u ∉ σ.started)
    (hcs : CCmd.run u ∉ cs) :
    pendingCount (stepClearQueue σ) = 0 ∧
    (stepClearQueue σ).discarded = σ.discarded ++ σ.current.queue ∧
    u ∈ (stepClearQueue σ).discarded ∧
    (stepClearQueue σ).started = σ.started ∧
    (stepClearQueue σ).current.active = σ.current.active ∧
    (stepClearQueue σ).old = σ.old ∧
    u ∉ (ccExec (stepClearQueue σ) cs).started := by
  refine ⟨rfl, rfl, List.mem_append.mpr (.inr hq), rfl, rfl, rfl, ?_⟩
  have hu : untracked (stepClearQueue σ) u :=
    ⟨List.not_mem_nil u, hna, hold, hst⟩
  exact (ccExec_untracked u cs (stepClearQueue σ) hu hcs).2.2.2

/-- Witness for the amended C9 theorem: with limit 1, unit 2 queued behind
running unit 1, `clearQueue` discards unit 2 and it never starts even after
unit 1 completes. -/
theorem clearQueue_spec_witness :
    pendingCount (stepClearQueue (ccExec (initCC 1) [.run 1, .run 2])) = 0 ∧
    2 ∈ (stepClearQueue (ccExec (initCC 1) [.run 1, .run 2])).discarded ∧
    2 ∉ (ccExec (stepClearQueue (ccExec (initCC 1) [.run 1, .run 2]))
      [.complete 1]).started := by
  have H := clearQueue_spec (ccExec (initCC 1) [.run 1, .run 2]) 2 [.complete 1]
    (by decide) (by decide) (by decide) (by decide) (by decide)
  exact ⟨H.1, H.2.2.1, H.2.2.2.2.2.2⟩

end Chunkflow
